import Mathlib

/-!
Verification model of libSDL2pp (headers under SDL2pp/).

The development shallowly embeds the two algorithmically interesting parts of
the library:

* the tiled-blit algorithm `Renderer::FillCopy` (Renderer.hh, lines 345-423),
  modelled over `Int` coordinates exactly following the C++ arithmetic
  (C `int` division truncates toward zero, embedded as `Int.tdiv`; the
  operands are in fact non-negative at both division sites);

* the move-only ownership pattern shared verbatim by `Window`, `Renderer`,
  `Texture`, `Surface` (a raw handle pointer, released by the destructor when
  non-null, transferred by move construction / move assignment with a
  self-assignment guard) and by `Mixer` (the same pattern with the boolean
  `open_` flag in place of the pointer), plus the `LockHandle` variants.

Machine integers are modelled as unbounded `Int`/`Nat`; the geometry involved
stays far from `int` overflow for the inputs considered.
-/

namespace SDL2pp

/-- The `SDL2pp::Rect` value type: origin `(x, y)` and extent `(w, h)`, all
signed integers (Rect.hh wraps `SDL_Rect`). -/
@[ext]
structure Rect where
  x : Int
  y : Int
  w : Int
  h : Int
deriving DecidableEq, Repr

/-- Value of the `SDL_FLIP_HORIZONTAL` bit of the `flip` argument. -/
def FLIP_HORIZONTAL : Nat := 1

/-- Value of the `SDL_FLIP_VERTICAL` bit of the `flip` argument. -/
def FLIP_VERTICAL : Nat := 2

/-- One axis of the start-tile normalization of `Renderer::FillCopy`
(Renderer.hh lines 358-367): given the nominal start coordinate `p`
(= `offset.x` resp. `offset.y`) and the tile extent `w` (= `src.w` resp.
`src.h`), the two sequential `if` statements

    if (start_tile.x + start_tile.w <= 0)
        start_tile.x += (-start_tile.x) / start_tile.w * start_tile.w;
    if (start_tile.x > 0)
        start_tile.x -= (start_tile.x + start_tile.w - 1) / start_tile.w * start_tile.w;

with C truncating division (`Int.tdiv`). -/
def normalizeStart (p w : Int) : Int :=
  let p1 := if p + w ≤ 0 then p + ((-p).tdiv w) * w else p
  if p1 > 0 then p1 - ((p1 + w - 1).tdiv w) * w else p1

/-- Fuel-driven unfolding of the tiling `for` loop header of
`Renderer::FillCopy` (Renderer.hh lines 370-371): the loop variable starts at
`s`, runs while `< bound` and is incremented by `step` each iteration.  The
fuel is only a termination device; `tileCoords` below supplies enough of it. -/
def tileCoordsAux : Nat → Int → Int → Int → List Int
  | 0, _, _, _ => []
  | Nat.succ n, s, step, bound =>
      if s < bound then s :: tileCoordsAux n (s + step) step bound else []

/-- The list of values taken by a loop variable of the tiling loops
`for (int y = start_tile.y; y < dst.h; y += start_tile.h)` /
`for (int x = start_tile.x; x < dst.w; x += start_tile.w)`
(Renderer.hh lines 370-371). -/
def tileCoords (s step bound : Int) : List Int :=
  tileCoordsAux (bound - s).toNat s step bound

/-- The loop body of `Renderer::FillCopy` (Renderer.hh lines 372-419) for a
tile whose loop coordinates are `(x, y)`: computes the pair
`(tile_src, tile_dst)` passed to `Renderer::Copy` — underflow clamping,
overflow clamping, translation of `tile_dst` by `dst`'s origin, and source
mirroring when `flip` is non-zero. -/
@[ext]
structure AxisClamp where
  srcPos : Int
  srcExt : Int
  dstPos : Int
  dstExt : Int
deriving DecidableEq, Repr

/-- One axis of the per-tile clamping of `Renderer::FillCopy` (Renderer.hh
lines 375-402).  The x- and y-axis clamps of the loop body are textually
symmetric and touch disjoint fields, so the body is embedded as this helper
applied once per axis.  For the x axis `v = x`, `sv = tile_src.x`,
`se = src.w` (the initial `tile_src.w` = `tile_dst.w`), `de = dst.w`:

    int xunderflow = -x;
    if (xunderflow > 0) {
        tile_src.w -= xunderflow;  tile_src.x += xunderflow;
        tile_dst.w -= xunderflow;  tile_dst.x += xunderflow;
    }
    ...
    int xoverflow = tile_dst.x + tile_dst.w - dst.w;
    if (xoverflow > 0) { tile_src.w -= xoverflow; tile_dst.w -= xoverflow; }

The source and destination extents receive identical updates; the source
position receives the underflow shift only, the destination position (still
relative at this stage) likewise. -/
def clampAxis (v sv se de : Int) : AxisClamp :=
  let underflow := -v
  let tsPos := if underflow > 0 then sv + underflow else sv
  let tsExt := if underflow > 0 then se - underflow else se
  let tdPos := if underflow > 0 then v + underflow else v
  let tdExt := if underflow > 0 then se - underflow else se
  let overflow := tdPos + tdExt - de
  let tsExt2 := if overflow > 0 then tsExt - overflow else tsExt
  let tdExt2 := if overflow > 0 then tdExt - overflow else tdExt
  ⟨tsPos, tsExt2, tdPos, tdExt2⟩

def emitTile (src dst : Rect) (flip : Nat) (x y : Int) : Rect × Rect :=
  -- Rect tile_src = src; Rect tile_dst(x, y, start_tile.w, start_tile.h);
  -- then the clamping of lines 375-402, one axis each:
  let cx := clampAxis x src.x src.w dst.w
  let cy := clampAxis y src.y src.h dst.h
  -- make tile_dst absolute: tile_dst.x += dst.x; tile_dst.y += dst.y;
  let tdx := cx.dstPos + dst.x
  let tdy := cy.dstPos + dst.y
  -- if (flip != 0) { if (flip & SDL_FLIP_HORIZONTAL)
  --     tile_src.x = src.w - tile_src.x - tile_src.w; ... } (lines 408-415)
  let tsx := if flip ≠ 0 ∧ flip &&& FLIP_HORIZONTAL ≠ 0 then
      src.w - cx.srcPos - cx.srcExt else cx.srcPos
  let tsy := if flip ≠ 0 ∧ flip &&& FLIP_VERTICAL ≠ 0 then
      src.h - cy.srcPos - cy.srcExt else cy.srcPos
  (⟨tsx, tsy, cx.srcExt, cy.srcExt⟩, ⟨tdx, tdy, cx.dstExt, cy.dstExt⟩)

/-- The normalized start tile of `Renderer::FillCopy` (Renderer.hh lines
351-367): nominal position `(offset.x, offset.y)`, extent `(src.w, src.h)`,
then both coordinates normalized. -/
def startTile (src : Rect) (ox oy : Int) : Rect :=
  ⟨normalizeStart ox src.w, normalizeStart oy src.h, src.w, src.h⟩

/-- The ordered sequence of `(tile_src, tile_dst)` arguments that
`Renderer::FillCopy` (Renderer.hh lines 345-423) passes to `Renderer::Copy`,
with `src`/`dst` the resolved source and destination rectangles, `(ox, oy)`
the `offset` argument and `flip` the flip flags: outer loop over `y`, inner
loop over `x`. -/
def fillCopyTiles (src dst : Rect) (ox oy : Int) (flip : Nat) : List (Rect × Rect) :=
  let start := startTile src ox oy
  (tileCoords start.y start.h dst.h).flatMap fun y =>
    (tileCoords start.x start.w dst.w).map fun x =>
      emitTile src dst flip x y

/-- Membership of a point in the half-open integer box of a `Rect`:
`r.x ≤ px < r.x + r.w` and `r.y ≤ py < r.y + r.h`. -/
def inRect (r : Rect) (p : Int × Int) : Prop :=
  r.x ≤ p.1 ∧ p.1 < r.x + r.w ∧ r.y ≤ p.2 ∧ p.2 < r.y + r.h

instance (r : Rect) (p : Int × Int) : Decidable (inRect r p) := by
  unfold inRect; infer_instance

/-! ### Arithmetic facts about the start-tile normalization -/

/-- Closed form of the two-branch normalization: for a positive tile extent it
computes the negated Euclidean remainder of `-p` modulo `w`. -/
theorem normalizeStart_eq (p w : Int) (hw : 0 < w) :
    normalizeStart p w = -((-p) % w) := by
  unfold normalizeStart
  by_cases hA : p + w ≤ 0
  · have hnp : (0 : Int) ≤ -p := by omega
    rw [if_pos hA, Int.tdiv_eq_ediv hnp (le_of_lt hw)]
    have hq := Int.ediv_add_emod (-p) w
    have hr0 : 0 ≤ (-p) % w := Int.emod_nonneg _ (by omega)
    have hrw : (-p) % w < w := Int.emod_lt_of_pos _ hw
    have hc : ((-p) / w) * w = w * ((-p) / w) := mul_comm _ _
    have hp1 : p + ((-p) / w) * w = -((-p) % w) := by linarith
    rw [hp1, if_neg (by omega)]
  · by_cases hB : p ≤ 0
    · rw [if_neg hA, if_neg (by omega)]
      have hself : (-p) % w = -p := Int.emod_eq_of_lt (by omega) (by omega)
      rw [hself]; ring
    · rw [if_neg hA, if_pos (by omega)]
      have hnn : (0 : Int) ≤ p + w - 1 := by omega
      rw [Int.tdiv_eq_ediv hnn (le_of_lt hw)]
      have hde := Int.ediv_add_emod p w
      have he0 : 0 ≤ p % w := Int.emod_nonneg _ (by omega)
      have hew : p % w < w := Int.emod_lt_of_pos _ hw
      have hcomm : (p / w) * w = w * (p / w) := mul_comm _ _
      have hsplit : p + w - 1 = (p % w + w - 1) + (p / w) * w := by linarith
      rw [hsplit, Int.add_mul_ediv_right _ _ (by omega : w ≠ 0)]
      by_cases hz : p % w = 0
      · have h1 : (p % w + w - 1) / w = 0 :=
          Int.ediv_eq_zero_of_lt (by omega) (by omega)
        have hmp : (-p) % w = 0 := by
          have hrepr : -p = 0 + (-(p / w)) * w := by linarith
          rw [hrepr, Int.add_mul_emod_self]
          exact Int.zero_emod w
        rw [h1, hmp]
        have hexp : (0 + p / w) * w = (p / w) * w := by ring
        rw [hexp]
        linarith
      · have h1 : (p % w + w - 1) / w = 1 := by
          have hrepr : p % w + w - 1 = (p % w - 1) + 1 * w := by ring
          rw [hrepr, Int.add_mul_ediv_right _ _ (by omega : w ≠ 0),
            Int.ediv_eq_zero_of_lt (by omega) (by omega)]
          ring
        have hmp : (-p) % w = w - p % w := by
          have hrepr : -p = (w - p % w) + (-(p / w) - 1) * w := by linarith
          rw [hrepr, Int.add_mul_emod_self,
            Int.emod_eq_of_lt (by omega) (by omega)]
        rw [h1, hmp]
        have hexp : (1 + p / w) * w = (p / w) * w + w := by ring
        rw [hexp]
        linarith

/-- The normalized start coordinate lies in the half-open window `(-w, 0]`. -/
theorem normalizeStart_bounds (p w : Int) (hw : 0 < w) :
    -w < normalizeStart p w ∧ normalizeStart p w ≤ 0 := by
  rw [normalizeStart_eq p w hw]
  have hr0 : 0 ≤ (-p) % w := Int.emod_nonneg _ (by omega)
  have hrw : (-p) % w < w := Int.emod_lt_of_pos _ hw
  omega

/-- Shifting the nominal start by an integer multiple of the tile extent does
not change the normalized start. -/
theorem normalizeStart_add_mul (p w k : Int) (hw : 0 < w) :
    normalizeStart (p + k * w) w = normalizeStart p w := by
  rw [normalizeStart_eq _ _ hw, normalizeStart_eq _ _ hw]
  have hrepr : -(p + k * w) = -p + (-k) * w := by ring
  rw [hrepr, Int.add_mul_emod_self]

/-! ### The tiling loop ranges -/

/-- With enough fuel, membership in the loop range is exactly being of the
form `s + i * step` for a natural `i` while still below the bound. -/
theorem mem_tileCoordsAux {step : Int} (hstep : 0 < step) (n : Nat) :
    ∀ s bound z : Int, (bound - s).toNat ≤ n →
      (z ∈ tileCoordsAux n s step bound ↔
        ∃ i : Nat, z = s + (i : Int) * step ∧ z < bound) := by
  induction n with
  | zero =>
    intro s bound z hn
    simp only [tileCoordsAux, List.not_mem_nil, false_iff]
    rintro ⟨i, rfl, hlt⟩
    have hbs : bound ≤ s := by omega
    have hnn : (0 : Int) ≤ (i : Int) * step :=
      mul_nonneg (Int.natCast_nonneg i) (le_of_lt hstep)
    linarith
  | succ n ih =>
    intro s bound z hn
    simp only [tileCoordsAux]
    by_cases hs : s < bound
    · rw [if_pos hs]
      simp only [List.mem_cons]
      rw [ih (s + step) bound z (by omega)]
      constructor
      · rintro (rfl | ⟨i, rfl, hlt⟩)
        · exact ⟨0, by simp, hs⟩
        · refine ⟨i + 1, ?_, hlt⟩
          push_cast
          ring
      · rintro ⟨i, rfl, hlt⟩
        cases i with
        | zero => left; simp
        | succ j =>
          right
          refine ⟨j, ?_, hlt⟩
          push_cast
          ring
    · rw [if_neg hs]
      simp only [List.not_mem_nil, false_iff]
      rintro ⟨i, rfl, hlt⟩
      have hnn : (0 : Int) ≤ (i : Int) * step :=
        mul_nonneg (Int.natCast_nonneg i) (le_of_lt hstep)
      linarith

/-- Membership characterization for the realized loop range. -/
theorem mem_tileCoords {step : Int} (hstep : 0 < step) (s bound z : Int) :
    z ∈ tileCoords s step bound ↔
      ∃ i : Nat, z = s + (i : Int) * step ∧ z < bound :=
  mem_tileCoordsAux hstep _ s bound z (le_refl _)

/-- Every coordinate produced by the loop is at least the start value. -/
theorem tileCoords_le {step : Int} (hstep : 0 < step) {s bound z : Int}
    (hz : z ∈ tileCoords s step bound) : s ≤ z := by
  obtain ⟨i, rfl, -⟩ := (mem_tileCoords hstep s bound z).mp hz
  have hnn : (0 : Int) ≤ (i : Int) * step :=
    mul_nonneg (Int.natCast_nonneg i) (le_of_lt hstep)
  linarith

/-- A point `p` at or after the start is covered by exactly one step window;
existence half. -/
theorem stepWindow_exists {step : Int} (hstep : 0 < step) (s p : Int)
    (hs : s ≤ p) :
    ∃ i : Nat, s + (i : Int) * step ≤ p ∧ p < s + (i : Int) * step + step := by
  have hq0 : 0 ≤ (p - s) / step := Int.ediv_nonneg (by omega) (le_of_lt hstep)
  refine ⟨((p - s) / step).toNat, ?_, ?_⟩ <;>
    rw [Int.toNat_of_nonneg hq0]
  all_goals {
    have hde := Int.ediv_add_emod (p - s) step
    have hr0 : 0 ≤ (p - s) % step := Int.emod_nonneg _ (by omega)
    have hrw : (p - s) % step < step := Int.emod_lt_of_pos _ hstep
    have hcomm : ((p - s) / step) * step = step * ((p - s) / step) :=
      mul_comm _ _
    linarith
  }

/-- A point is covered by at most one step window; uniqueness half. -/
theorem stepWindow_unique {step : Int} (hstep : 0 < step) (s p : Int)
    (i j : Nat)
    (hi1 : s + (i : Int) * step ≤ p) (hi2 : p < s + (i : Int) * step + step)
    (hj1 : s + (j : Int) * step ≤ p) (hj2 : p < s + (j : Int) * step + step) :
    i = j := by
  rcases lt_trichotomy i j with h | h | h
  · exfalso
    have hle : ((i : Int) + 1) ≤ (j : Int) := by exact_mod_cast h
    have hmul : ((i : Int) + 1) * step ≤ (j : Int) * step :=
      mul_le_mul_of_nonneg_right hle (le_of_lt hstep)
    have hexp : ((i : Int) + 1) * step = (i : Int) * step + step := by ring
    linarith
  · exact h
  · exfalso
    have hle : ((j : Int) + 1) ≤ (i : Int) := by exact_mod_cast h
    have hmul : ((j : Int) + 1) * step ≤ (i : Int) * step :=
      mul_le_mul_of_nonneg_right hle (le_of_lt hstep)
    have hexp : ((j : Int) + 1) * step = (j : Int) * step + step := by ring
    linarith

/-! ### Shape of an emitted tile -/

/-- Closed form of the per-axis clamp: the destination interval is the
intersection of the nominal tile span `[v, v + se)` with `[0, de)`, and the
source interval is shifted by the cropped-away left part; source and
destination extents coincide. -/
theorem clampAxis_eq (v sv se de : Int) :
    clampAxis v sv se de =
      ⟨sv + max (-v) 0, min (v + se) de - max v 0,
       max v 0, min (v + se) de - max v 0⟩ := by
  simp only [clampAxis]
  split_ifs <;> simp_all [AxisClamp.mk.injEq] <;> omega

/-- The destination rectangle of an emitted tile in closed form: the
clamping steps intersect the nominal tile `[x, x + src.w) x [y, y + src.h)`
with `[0, dst.w) x [0, dst.h)` and the final translation moves it to
absolute coordinates.  The flip flags never touch `tile_dst`. -/
theorem emitTile_snd (src dst : Rect) (flip : Nat) (x y : Int) :
    (emitTile src dst flip x y).2 =
      ⟨dst.x + max x 0, dst.y + max y 0,
       min (x + src.w) dst.w - max x 0, min (y + src.h) dst.h - max y 0⟩ := by
  simp only [emitTile, clampAxis_eq]
  refine Rect.ext ?_ ?_ ?_ ?_ <;> simp <;> ring

/-- The source rectangle of an emitted tile when no flip is requested, in
closed form. -/
theorem emitTile_fst_noflip (src dst : Rect) (x y : Int) :
    (emitTile src dst 0 x y).1 =
      ⟨src.x + max (-x) 0, src.y + max (-y) 0,
       min (x + src.w) dst.w - max x 0, min (y + src.h) dst.h - max y 0⟩ := by
  simp only [emitTile, clampAxis_eq]
  refine Rect.ext ?_ ?_ ?_ ?_ <;> simp

/-- With a non-zero flip, the emitted source rectangle is the unflipped one
with its x-origin mirrored inside the source width when the horizontal bit is
set, and its y-origin mirrored inside the source height when the vertical bit
is set; extents are untouched, and the destination rectangle is identical to
the unflipped one. -/
theorem emitTile_flip_mirror (src dst : Rect) (flip : Nat) (x y : Int)
    (hflip : flip ≠ 0) :
    ((emitTile src dst flip x y).1.x =
        (if flip &&& FLIP_HORIZONTAL ≠ 0 then
          src.w - (emitTile src dst 0 x y).1.x - (emitTile src dst 0 x y).1.w
        else (emitTile src dst 0 x y).1.x)) ∧
    ((emitTile src dst flip x y).1.y =
        (if flip &&& FLIP_VERTICAL ≠ 0 then
          src.h - (emitTile src dst 0 x y).1.y - (emitTile src dst 0 x y).1.h
        else (emitTile src dst 0 x y).1.y)) ∧
    (emitTile src dst flip x y).1.w = (emitTile src dst 0 x y).1.w ∧
    (emitTile src dst flip x y).1.h = (emitTile src dst 0 x y).1.h ∧
    (emitTile src dst flip x y).2 = (emitTile src dst 0 x y).2 := by
  simp only [emitTile]
  split_ifs <;> simp_all

/-! ### The emitted tile list -/

/-- A pair is emitted by `FillCopy` exactly when it is the tile of some pair
of loop coordinates. -/
theorem mem_fillCopyTiles (src dst : Rect) (ox oy : Int) (flip : Nat)
    (t : Rect × Rect) :
    t ∈ fillCopyTiles src dst ox oy flip ↔
      ∃ x y : Int,
        x ∈ tileCoords (normalizeStart ox src.w) src.w dst.w ∧
        y ∈ tileCoords (normalizeStart oy src.h) src.h dst.h ∧
        t = emitTile src dst flip x y := by
  simp only [fillCopyTiles, startTile, List.mem_flatMap, List.mem_map]
  constructor
  · rintro ⟨y, hy, x, hx, rfl⟩
    exact ⟨x, y, hx, hy, rfl⟩
  · rintro ⟨x, y, hx, hy, rfl⟩
    exact ⟨y, hy, x, hx, rfl⟩

/-- A loop coordinate lies in the open window `(-extent, bound)`. -/
theorem tileCoords_window {w bound : Int} (hw : 0 < w) (p : Int)
    {z : Int} (hz : z ∈ tileCoords (normalizeStart p w) w bound) :
    -w < z ∧ z < bound := by
  obtain ⟨hlo, -⟩ := normalizeStart_bounds p w hw
  have hle := tileCoords_le hw hz
  obtain ⟨i, -, hlt⟩ := (mem_tileCoords hw _ _ _).mp hz
  exact ⟨by omega, hlt⟩

/-- Helper for the partition theorem, one axis: the clipped spans
`[max z 0, min (z + w) bound)` over the emitted loop coordinates `z`
partition `[0, bound)`. -/
theorem axis_cover (w bound : Int) (hw : 0 < w)
    (p q : Int) (hq0 : 0 ≤ q) (hqb : q < bound) :
    ∃ z ∈ tileCoords (normalizeStart p w) w bound,
      max z 0 ≤ q ∧ q < min (z + w) bound := by
  obtain ⟨hlo, hhi⟩ := normalizeStart_bounds p w hw
  obtain ⟨i, hi1, hi2⟩ :=
    stepWindow_exists hw (normalizeStart p w) q (by omega)
  refine ⟨normalizeStart p w + (i : Int) * w, ?_, ?_, ?_⟩
  · exact (mem_tileCoords hw _ _ _).mpr ⟨i, rfl, by omega⟩
  · omega
  · omega

/-- Helper for the partition theorem, one axis: two emitted loop coordinates
whose clipped spans share the point `q` are equal. -/
theorem axis_unique {w bound : Int} (hw : 0 < w) (p q : Int)
    {z1 z2 : Int}
    (h1 : z1 ∈ tileCoords (normalizeStart p w) w bound)
    (h2 : z2 ∈ tileCoords (normalizeStart p w) w bound)
    (c1 : max z1 0 ≤ q ∧ q < min (z1 + w) bound)
    (c2 : max z2 0 ≤ q ∧ q < min (z2 + w) bound) :
    z1 = z2 := by
  obtain ⟨i, rfl, -⟩ := (mem_tileCoords hw _ _ _).mp h1
  obtain ⟨j, rfl, -⟩ := (mem_tileCoords hw _ _ _).mp h2
  have hij : i = j :=
    stepWindow_unique hw (normalizeStart p w) q i j
      (by omega) (by omega) (by omega) (by omega)
  rw [hij]

/-! ### Claim theorems about the tiled blit -/

/-- C1: for positive destination extents and positive tile (source) extents
and any integer offset, the destination sub-rectangles emitted by
`Renderer::FillCopy` are pairwise disjoint and their union is exactly the
destination box `[dst.x, dst.x + dst.w) x [dst.y, dst.y + dst.h)`
(`[0, W) x [0, H)` in destination-relative coordinates): no gaps, no
overlaps, no omissions. -/
theorem fillCopy_covers_exactly (src dst : Rect) (ox oy : Int) (flip : Nat)
    (hsw : 0 < src.w) (hsh : 0 < src.h) (hdw : 0 < dst.w) (hdh : 0 < dst.h) :
    (∀ p : Int × Int,
        (∃ t ∈ fillCopyTiles src dst ox oy flip, inRect t.2 p) ↔
          (dst.x ≤ p.1 ∧ p.1 < dst.x + dst.w ∧
           dst.y ≤ p.2 ∧ p.2 < dst.y + dst.h)) ∧
    (∀ t1 ∈ fillCopyTiles src dst ox oy flip,
      ∀ t2 ∈ fillCopyTiles src dst ox oy flip,
        t1.2 ≠ t2.2 → ∀ p : Int × Int, ¬(inRect t1.2 p ∧ inRect t2.2 p)) := by
  constructor
  · intro p
    constructor
    · rintro ⟨t, ht, hin⟩
      rw [mem_fillCopyTiles] at ht
      obtain ⟨x, y, hx, hy, rfl⟩ := ht
      obtain ⟨hx1, hx2⟩ := tileCoords_window hsw ox hx
      obtain ⟨hy1, hy2⟩ := tileCoords_window hsh oy hy
      rw [emitTile_snd] at hin
      obtain ⟨ha, hb, hc, hd⟩ := hin
      simp only at ha hb hc hd
      omega
    · rintro ⟨h1, h2, h3, h4⟩
      obtain ⟨zx, hzx, hcx⟩ :=
        axis_cover src.w dst.w hsw ox (p.1 - dst.x) (by omega) (by omega)
      obtain ⟨zy, hzy, hcy⟩ :=
        axis_cover src.h dst.h hsh oy (p.2 - dst.y) (by omega) (by omega)
      refine ⟨emitTile src dst flip zx zy,
        (mem_fillCopyTiles src dst ox oy flip _).mpr ⟨zx, zy, hzx, hzy, rfl⟩, ?_⟩
      rw [emitTile_snd]
      refine ⟨?_, ?_, ?_, ?_⟩ <;> simp only <;> omega
  · rintro t1 ht1 t2 ht2 hne p ⟨hin1, hin2⟩
    rw [mem_fillCopyTiles] at ht1 ht2
    obtain ⟨x1, y1, hx1, hy1, rfl⟩ := ht1
    obtain ⟨x2, y2, hx2, hy2, rfl⟩ := ht2
    rw [emitTile_snd] at hin1 hin2
    obtain ⟨ha1, hb1, hc1, hd1⟩ := hin1
    obtain ⟨ha2, hb2, hc2, hd2⟩ := hin2
    simp only at ha1 hb1 hc1 hd1 ha2 hb2 hc2 hd2
    have hxeq : x1 = x2 :=
      axis_unique hsw ox (p.1 - dst.x) hx1 hx2 ⟨by omega, by omega⟩ ⟨by omega, by omega⟩
    have hyeq : y1 = y2 :=
      axis_unique hsh oy (p.2 - dst.y) hy1 hy2 ⟨by omega, by omega⟩ ⟨by omega, by omega⟩
    exact hne (by rw [hxeq, hyeq])

/-- C1 witness instance: the spec's worked example, destination 10 x 10,
tile 4 x 4, zero offset. -/
theorem fillCopy_covers_exactly_witness :
    (0 : Int) < 4 ∧ (0 : Int) < 10 ∧
    ((∀ p : Int × Int,
        (∃ t ∈ fillCopyTiles ⟨0, 0, 4, 4⟩ ⟨0, 0, 10, 10⟩ 0 0 0, inRect t.2 p) ↔
          ((0 : Int) ≤ p.1 ∧ p.1 < 0 + 10 ∧ (0 : Int) ≤ p.2 ∧ p.2 < 0 + 10)) ∧
      (∀ t1 ∈ fillCopyTiles (⟨0, 0, 4, 4⟩ : Rect) ⟨0, 0, 10, 10⟩ 0 0 0,
        ∀ t2 ∈ fillCopyTiles (⟨0, 0, 4, 4⟩ : Rect) ⟨0, 0, 10, 10⟩ 0 0 0,
          t1.2 ≠ t2.2 → ∀ p : Int × Int, ¬(inRect t1.2 p ∧ inRect t2.2 p))) :=
  ⟨by decide, by decide,
    fillCopy_covers_exactly ⟨0, 0, 4, 4⟩ ⟨0, 0, 10, 10⟩ 0 0 0
      (by decide) (by decide) (by decide) (by decide)⟩

/-- C3: after normalization the start tile's origin lies in
`(-tile_w, 0] x (-tile_h, 0]`: the leftmost/topmost tile that still meets or
precedes the destination origin, for every integer offset. -/
theorem startTile_origin_window (src : Rect) (ox oy : Int)
    (hw : 0 < src.w) (hh : 0 < src.h) :
    -src.w < (startTile src ox oy).x ∧ (startTile src ox oy).x ≤ 0 ∧
    -src.h < (startTile src ox oy).y ∧ (startTile src ox oy).y ≤ 0 := by
  have hx := normalizeStart_bounds ox src.w hw
  have hy := normalizeStart_bounds oy src.h hh
  exact ⟨hx.1, hx.2, hy.1, hy.2⟩

/-- C3 witness instance: tile 4 x 3, offset (13, -7). -/
theorem startTile_origin_window_witness :
    (0 : Int) < 4 ∧ (0 : Int) < 3 ∧
    (-(4 : Int) < (startTile ⟨0, 0, 4, 3⟩ 13 (-7)).x ∧
      (startTile ⟨0, 0, 4, 3⟩ 13 (-7)).x ≤ 0 ∧
      -(3 : Int) < (startTile ⟨0, 0, 4, 3⟩ 13 (-7)).y ∧
      (startTile ⟨0, 0, 4, 3⟩ 13 (-7)).y ≤ 0) :=
  ⟨by decide, by decide,
    startTile_origin_window ⟨0, 0, 4, 3⟩ 13 (-7) (by decide) (by decide)⟩

/-- C4: shifting the offset by the same integer multiple of the tile extents
on both axes yields the identical emitted sequence of
(source, destination) rectangle pairs. -/
theorem fillCopy_offset_periodic (src dst : Rect) (ox oy k : Int) (flip : Nat)
    (hw : 0 < src.w) (hh : 0 < src.h) :
    fillCopyTiles src dst (ox + k * src.w) (oy + k * src.h) flip =
      fillCopyTiles src dst ox oy flip := by
  simp only [fillCopyTiles, startTile,
    normalizeStart_add_mul ox src.w k hw, normalizeStart_add_mul oy src.h k hh]

/-- C4 witness instance: tile 4 x 3, offset (1, 2), k = -5. -/
theorem fillCopy_offset_periodic_witness :
    (0 : Int) < 4 ∧ (0 : Int) < 3 ∧
    fillCopyTiles ⟨0, 0, 4, 3⟩ ⟨0, 0, 10, 10⟩ (1 + (-5) * 4) (2 + (-5) * 3) 0 =
      fillCopyTiles ⟨0, 0, 4, 3⟩ ⟨0, 0, 10, 10⟩ 1 2 0 :=
  ⟨by decide, by decide,
    fillCopy_offset_periodic ⟨0, 0, 4, 3⟩ ⟨0, 0, 10, 10⟩ 1 2 (-5) 0
      (by decide) (by decide)⟩

/-- C10: with positive source and destination extents, every destination
rectangle that reaches the per-tile `Copy` call has strictly positive width
and height; a degenerate copy request is unreachable. -/
theorem fillCopy_tiles_nondegenerate (src dst : Rect) (ox oy : Int)
    (flip : Nat)
    (hsw : 0 < src.w) (hsh : 0 < src.h) (hdw : 0 < dst.w) (hdh : 0 < dst.h) :
    ∀ t ∈ fillCopyTiles src dst ox oy flip, 0 < t.2.w ∧ 0 < t.2.h := by
  intro t ht
  rw [mem_fillCopyTiles] at ht
  obtain ⟨x, y, hx, hy, rfl⟩ := ht
  obtain ⟨hx1, hx2⟩ := tileCoords_window hsw ox hx
  obtain ⟨hy1, hy2⟩ := tileCoords_window hsh oy hy
  rw [emitTile_snd]
  constructor <;> simp only <;> omega

/-- C10 witness instance. -/
theorem fillCopy_tiles_nondegenerate_witness :
    (0 : Int) < 4 ∧ (0 : Int) < 10 ∧
    ∀ t ∈ fillCopyTiles (⟨0, 0, 4, 4⟩ : Rect) ⟨0, 0, 10, 10⟩ 3 (-2) 0,
      0 < t.2.w ∧ 0 < t.2.h :=
  ⟨by decide, by decide,
    fillCopy_tiles_nondegenerate ⟨0, 0, 4, 4⟩ ⟨0, 0, 10, 10⟩ 3 (-2) 0
      (by decide) (by decide) (by decide) (by decide)⟩

/-- C2: for every tile of the loop, the source sub-rectangle emitted under a
non-zero flip is the unflipped one with its x-origin mirrored inside the
source width when the horizontal bit is set
(`tile_src.x = src.w - tile_src.x - tile_src.w`), its y-origin mirrored
inside the source height when the vertical bit is set, and unchanged extents;
the destination rectangle is not affected.  In particular, for
`src = (0,0,4,4)` the single tile of a 2 x 4 destination with offset
`(-2, 0)` — a tile clipped to its right 2 columns — samples source columns
`[0, 2)` under horizontal flip: its emitted source rectangle is
`(0, 0, 2, 4)`, not `(2, 0, 2, 4)`. -/
theorem fillCopy_flip_mirrors_sampling (src dst : Rect) (flip : Nat)
    (hflip : flip ≠ 0) :
    (∀ x y : Int,
      ((emitTile src dst flip x y).1.x =
        (if flip &&& FLIP_HORIZONTAL ≠ 0 then
          src.w - (emitTile src dst 0 x y).1.x - (emitTile src dst 0 x y).1.w
        else (emitTile src dst 0 x y).1.x)) ∧
      ((emitTile src dst flip x y).1.y =
        (if flip &&& FLIP_VERTICAL ≠ 0 then
          src.h - (emitTile src dst 0 x y).1.y - (emitTile src dst 0 x y).1.h
        else (emitTile src dst 0 x y).1.y)) ∧
      (emitTile src dst flip x y).1.w = (emitTile src dst 0 x y).1.w ∧
      (emitTile src dst flip x y).1.h = (emitTile src dst 0 x y).1.h ∧
      (emitTile src dst flip x y).2 = (emitTile src dst 0 x y).2) ∧
    fillCopyTiles ⟨0, 0, 4, 4⟩ ⟨0, 0, 2, 4⟩ (-2) 0 FLIP_HORIZONTAL =
      [(⟨0, 0, 2, 4⟩, ⟨0, 0, 2, 4⟩)] := by
  refine ⟨fun x y => ?_, by decide⟩
  exact emitTile_flip_mirror src dst flip x y hflip

/-- C2 witness instance: horizontal flip only. -/
theorem fillCopy_flip_mirrors_sampling_witness :
    (1 : Nat) ≠ 0 ∧
    ((∀ x y : Int,
      ((emitTile ⟨0, 0, 4, 4⟩ ⟨0, 0, 2, 4⟩ 1 x y).1.x =
        (if (1 : Nat) &&& FLIP_HORIZONTAL ≠ 0 then
          (4 : Int) - (emitTile ⟨0, 0, 4, 4⟩ ⟨0, 0, 2, 4⟩ 0 x y).1.x -
            (emitTile ⟨0, 0, 4, 4⟩ ⟨0, 0, 2, 4⟩ 0 x y).1.w
        else (emitTile (⟨0, 0, 4, 4⟩ : Rect) ⟨0, 0, 2, 4⟩ 0 x y).1.x)) ∧
      ((emitTile ⟨0, 0, 4, 4⟩ ⟨0, 0, 2, 4⟩ 1 x y).1.y =
        (if (1 : Nat) &&& FLIP_VERTICAL ≠ 0 then
          (4 : Int) - (emitTile ⟨0, 0, 4, 4⟩ ⟨0, 0, 2, 4⟩ 0 x y).1.y -
            (emitTile ⟨0, 0, 4, 4⟩ ⟨0, 0, 2, 4⟩ 0 x y).1.h
        else (emitTile (⟨0, 0, 4, 4⟩ : Rect) ⟨0, 0, 2, 4⟩ 0 x y).1.y)) ∧
      (emitTile ⟨0, 0, 4, 4⟩ ⟨0, 0, 2, 4⟩ 1 x y).1.w =
        (emitTile ⟨0, 0, 4, 4⟩ ⟨0, 0, 2, 4⟩ 0 x y).1.w ∧
      (emitTile ⟨0, 0, 4, 4⟩ ⟨0, 0, 2, 4⟩ 1 x y).1.h =
        (emitTile ⟨0, 0, 4, 4⟩ ⟨0, 0, 2, 4⟩ 0 x y).1.h ∧
      (emitTile ⟨0, 0, 4, 4⟩ ⟨0, 0, 2, 4⟩ 1 x y).2 =
        (emitTile ⟨0, 0, 4, 4⟩ ⟨0, 0, 2, 4⟩ 0 x y).2) ∧
    fillCopyTiles ⟨0, 0, 4, 4⟩ ⟨0, 0, 2, 4⟩ (-2) 0 FLIP_HORIZONTAL =
      [(⟨0, 0, 2, 4⟩, ⟨0, 0, 2, 4⟩)]) :=
  ⟨by decide, fillCopy_flip_mirrors_sampling ⟨0, 0, 4, 4⟩ ⟨0, 0, 2, 4⟩ 1 (by decide)⟩

/-! ### Failure propagation of the tiling loop -/

/-- Execution of the per-tile copies of the FillCopy loop (Renderer.hh lines
370-421).  `Renderer::Copy` (Renderer.hh lines 229-233) throws
`Exception("SDL_RenderCopy")` when the native call reports failure, and the
loop body contains no handler, so the exception aborts the remaining
iterations.  `ok` abstracts the native copy's success on a given tile; the
result is the list of copies actually issued, in order, paired with `true`
iff the loop ran to completion. -/
def runTiles (ok : Rect × Rect → Bool) : List (Rect × Rect) → List (Rect × Rect) × Bool
  | [] => ([], true)
  | t :: ts =>
      if ok t then
        let r := runTiles ok ts
        (t :: r.1, r.2)
      else ([], false)

/-- If every tile before index `i` copies successfully and the copy of tile
`i` fails, the run issues exactly the first `i` copies and aborts. -/
theorem runTiles_take {ok : Rect × Rect → Bool} (d : Rect × Rect) :
    ∀ (l : List (Rect × Rect)) (i : Nat), i < l.length →
      (∀ j, j < i → ok (l.getD j d) = true) → ok (l.getD i d) = false →
      runTiles ok l = (l.take i, false) := by
  intro l
  induction l with
  | nil => intro i hi; simp at hi
  | cons t ts ih =>
    intro i hi hok hfail
    cases i with
    | zero =>
      simp only [List.getD_cons_zero] at hfail
      simp [runTiles, hfail]
    | succ n =>
      have h0 : ok t = true := by
        have := hok 0 (Nat.succ_pos n)
        simpa using this
      simp only [List.getD_cons_succ] at hfail
      have hrec : runTiles ok ts = (ts.take n, false) := by
        refine ih n (by simpa using hi) (fun j hj => ?_) hfail
        have := hok (j + 1) (by omega)
        simpa using this
      simp [runTiles, h0, hrec]

/-- C6: if the per-tile copy fails on the tile at position `i` of the emitted
sequence (all earlier tiles succeeding), the failure aborts the loop
immediately: exactly the copies before position `i` are issued, none after,
and the run does not complete. -/
theorem fillCopy_aborts_on_first_failure (src dst : Rect) (ox oy : Int)
    (flip : Nat) (ok : Rect × Rect → Bool) (d : Rect × Rect) (i : Nat)
    (hi : i < (fillCopyTiles src dst ox oy flip).length)
    (hok : ∀ j, j < i → ok ((fillCopyTiles src dst ox oy flip).getD j d) = true)
    (hfail : ok ((fillCopyTiles src dst ox oy flip).getD i d) = false) :
    runTiles ok (fillCopyTiles src dst ox oy flip) =
      ((fillCopyTiles src dst ox oy flip).take i, false) :=
  runTiles_take d _ i hi hok hfail

/-- C6 witness instance: a 3 x 3 tile grid whose fourth tile (index 3, the
first tile of the second row) fails. -/
theorem fillCopy_aborts_on_first_failure_witness :
    (3 < (fillCopyTiles (⟨0, 0, 4, 4⟩ : Rect) ⟨0, 0, 10, 10⟩ 0 0 0).length ∧
      (∀ j, j < 3 →
        (fun t : Rect × Rect => t.2.y == 0)
          ((fillCopyTiles (⟨0, 0, 4, 4⟩ : Rect) ⟨0, 0, 10, 10⟩ 0 0 0).getD j
            (⟨0, 0, 0, 0⟩, ⟨0, 0, 0, 0⟩)) = true) ∧
      (fun t : Rect × Rect => t.2.y == 0)
        ((fillCopyTiles (⟨0, 0, 4, 4⟩ : Rect) ⟨0, 0, 10, 10⟩ 0 0 0).getD 3
          (⟨0, 0, 0, 0⟩, ⟨0, 0, 0, 0⟩)) = false) ∧
    runTiles (fun t : Rect × Rect => t.2.y == 0)
        (fillCopyTiles ⟨0, 0, 4, 4⟩ ⟨0, 0, 10, 10⟩ 0 0 0) =
      ((fillCopyTiles (⟨0, 0, 4, 4⟩ : Rect) ⟨0, 0, 10, 10⟩ 0 0 0).take 3,
        false) :=
  ⟨⟨by decide, by decide, by decide⟩,
    fillCopy_aborts_on_first_failure ⟨0, 0, 4, 4⟩ ⟨0, 0, 10, 10⟩ 0 0 0
      (fun t : Rect × Rect => t.2.y == 0) (⟨0, 0, 0, 0⟩, ⟨0, 0, 0, 0⟩) 3
      (by decide) (by decide) (by decide)⟩

/-! ### The scoped-resource ownership pattern

`Window` (Window.hh 105-140), `Renderer` (Renderer.hh 97-128), `Texture`
(Texture.hh 254-285) and `Surface` (Surface.hh 300-335) manage a raw handle
pointer with a textually identical destructor / move constructor / move
assignment triple; `Mixer` (Mixer.hh 94-132) follows the same pattern with
the boolean `open_` flag standing for the handle.  A wrapper instance is
modelled as `Option Nat`: `none` is the null pointer (resp. `open_ ==
false`), `some h` ownership of the abstract handle `h`.  A collection of
wrapper instances is a list of such slots, indexed by position. -/

/-- The destructor, e.g. `~Renderer` (Renderer.hh 97-100):

    if (renderer_ != nullptr) SDL_DestroyRenderer(renderer_);

returns the handles released (none when the instance is empty). -/
def destructorReleases (h : Option Nat) : List Nat := h.toList

/-- Move assignment `operator=(T&&)` from the slot `i` (`other`) to the slot
`j` (`*this`), e.g. Renderer.hh 120-128:

    if (&other == this) return *this;
    if (renderer_ != nullptr) SDL_DestroyRenderer(renderer_);
    renderer_ = other.renderer_;  other.renderer_ = nullptr;

Returns the updated collection and the handles released by the assignment. -/
def moveAssignStep (s : List (Option Nat)) (i j : Nat) :
    List (Option Nat) × List Nat :=
  if i = j then (s, [])
  else ((s.set j (s.getD i none)).set i none, (s.getD j none).toList)

/-- Move construction of a fresh instance from the slot `i`, e.g.
Renderer.hh 108-110:

    Renderer(Renderer&& other) noexcept : renderer_(other.renderer_) {
        other.renderer_ = nullptr; }

The new instance is appended at the end; nothing is released. -/
def moveCtorStep (s : List (Option Nat)) (i : Nat) : List (Option Nat) :=
  (s.set i none) ++ [s.getD i none]

/-- A move operation on a collection of wrapper instances. -/
inductive MoveOp where
  | ctor (src : Nat)
  | assign (src tgt : Nat)
deriving DecidableEq, Repr

/-- One move operation applied to the collection: the updated collection and
the handles released during the operation. -/
def stepOp (s : List (Option Nat)) : MoveOp → List (Option Nat) × List Nat
  | .ctor i => (moveCtorStep s i, [])
  | .assign i j => moveAssignStep s i j

/-- A whole sequence of move operations: final collection plus all handles
released along the way, in order. -/
def runOps : List (Option Nat) → List MoveOp → List (Option Nat) × List Nat
  | s, [] => (s, [])
  | s, op :: rest =>
      let r1 := stepOp s op
      let r2 := runOps r1.1 rest
      (r2.1, r1.2 ++ r2.2)

/-- End of all lifetimes: every remaining instance is destroyed, releasing
the handles it still owns. -/
def destroyAll (s : List (Option Nat)) : List Nat := s.filterMap id

/-- All operation indices refer to instances that exist at that time (move
construction makes the collection one longer). -/
def validMoveOps : Nat → List MoveOp → Bool
  | _, [] => true
  | n, .ctor i :: rest => decide (i < n) && validMoveOps (n + 1) rest
  | n, .assign i j :: rest =>
      decide (i < n) && decide (j < n) && validMoveOps n rest

/-- Number of instances currently owning the handle `h`. -/
def ownCount (h : Nat) (s : List (Option Nat)) : Nat := s.count (some h)

/-! ### Counting lemmas for the ownership pattern -/

theorem getD_set_ne {α : Type} (l : List α) {i j : Nat} (h : j ≠ i)
    (v d : α) : (l.set j v).getD i d = l.getD i d := by
  simp [List.getD]
  rw [List.getElem?_set_ne h]

theorem getD_set_self {α : Type} (l : List α) {i : Nat} (hi : i < l.length)
    (v d : α) : (l.set i v).getD i d = v := by
  simp [List.getD, List.getElem?_set_self, hi]

theorem count_set_balance :
    ∀ (l : List (Option Nat)) (j : Nat) (v d a : Option Nat), j < l.length →
      (l.set j v).count a + (if l.getD j d = a then 1 else 0)
        = l.count a + (if v = a then 1 else 0) := by
  intro l
  induction l with
  | nil => intro j v d a hj; simp at hj
  | cons x xs ih =>
    intro j v d a hj
    cases j with
    | zero =>
      simp only [List.set_cons_zero, List.getD_cons_zero, List.count_cons,
        beq_iff_eq]
      split_ifs <;> omega
    | succ n =>
      simp only [List.set_cons_succ, List.getD_cons_succ, List.count_cons,
        beq_iff_eq]
      have hrec := ih n v d a (by simpa using hj)
      split_ifs at hrec ⊢ <;> omega

theorem count_toList (o : Option Nat) (h : Nat) :
    o.toList.count h = if o = some h then 1 else 0 := by
  cases o with
  | none => simp
  | some a =>
    simp only [Option.toList_some, List.count_cons, List.count_nil,
      Option.some.injEq, beq_iff_eq, Nat.zero_add]

/-- Each move assignment conserves ownership-plus-releases of every handle. -/
theorem moveAssign_balance (s : List (Option Nat)) (i j : Nat) (h : Nat)
    (hi : i < s.length) (hj : j < s.length) :
    ownCount h (moveAssignStep s i j).1 + (moveAssignStep s i j).2.count h
      = ownCount h s := by
  unfold moveAssignStep ownCount
  by_cases hij : i = j
  · simp [hij]
  · rw [if_neg hij]
    simp only
    have h1 := count_set_balance (s.set j (s.getD i none)) i
      (none : Option Nat) none (some h) (by simpa using hi)
    have h2 := count_set_balance s j (s.getD i none) none (some h) hj
    have h3 : (s.set j (s.getD i none)).getD i none = s.getD i none :=
      getD_set_ne s (fun hh => hij hh.symm) _ _
    rw [h3] at h1
    rw [count_toList]
    have hnone : (if (none : Option Nat) = some h then 1 else 0) = 0 := rfl
    rw [hnone] at h1
    omega

/-- Move construction conserves ownership of every handle and releases
nothing. -/
theorem moveCtor_balance (s : List (Option Nat)) (i : Nat) (h : Nat)
    (hi : i < s.length) :
    ownCount h (moveCtorStep s i) = ownCount h s := by
  unfold moveCtorStep ownCount
  rw [List.count_append]
  have h1 := count_set_balance s i (none : Option Nat) none (some h) hi
  have hnone : (if (none : Option Nat) = some h then 1 else 0) = 0 := rfl
  rw [hnone] at h1
  have h4 : (([s.getD i none] : List (Option Nat)).count (some h))
      = if s.getD i none = some h then 1 else 0 := by
    simp only [List.count_cons, List.count_nil, Nat.zero_add,
      Option.some.injEq, beq_iff_eq]
  rw [h4]
  omega

/-- A whole valid operation sequence conserves ownership-plus-releases. -/
theorem runOps_balance (h : Nat) :
    ∀ (ops : List MoveOp) (s : List (Option Nat)),
      validMoveOps s.length ops = true →
      ownCount h (runOps s ops).1 + (runOps s ops).2.count h
        = ownCount h s := by
  intro ops
  induction ops with
  | nil => intro s _; simp [runOps]
  | cons op rest ih =>
    intro s hvalid
    cases op with
    | ctor i =>
      simp only [validMoveOps, Bool.and_eq_true, decide_eq_true_eq] at hvalid
      obtain ⟨hi, hrest⟩ := hvalid
      have hlen : (moveCtorStep s i).length = s.length + 1 := by
        simp [moveCtorStep]
      have hrec := ih (moveCtorStep s i) (by rw [hlen]; exact hrest)
      simp only [runOps, stepOp, List.nil_append]
      rw [hrec]
      exact moveCtor_balance s i h hi
    | assign i j =>
      simp only [validMoveOps, Bool.and_eq_true, decide_eq_true_eq] at hvalid
      obtain ⟨⟨hi, hj⟩, hrest⟩ := hvalid
      have hlen : (moveAssignStep s i j).1.length = s.length := by
        unfold moveAssignStep
        by_cases hij : i = j <;> simp [hij]
      have hrec := ih (moveAssignStep s i j).1 (by rw [hlen]; exact hrest)
      simp only [runOps, stepOp]
      rw [List.count_append, Nat.add_comm ((moveAssignStep s i j).2.count h),
        ← Nat.add_assoc, hrec]
      exact moveAssign_balance s i j h hi hj

/-- Destroying all remaining instances releases exactly the owned handles. -/
theorem count_destroyAll (s : List (Option Nat)) (h : Nat) :
    (destroyAll s).count h = ownCount h s := by
  unfold destroyAll ownCount
  induction s with
  | nil => simp
  | cons o rest ih =>
    cases o with
    | none => simpa using ih
    | some a =>
      simp only [List.filterMap_cons_some, id, List.count_cons,
        Option.some.injEq, ih]
      split_ifs with h1 h2 <;> simp_all

/-- C5: starting from a collection in which exactly one instance owns the
handle `h`, any valid sequence of move constructions and move assignments
followed by the destruction of all instances releases `h` exactly once in
total; and a moved-from instance is left empty, so its destructor releases
nothing. -/
theorem scoped_resource_single_release (s0 : List (Option Nat))
    (ops : List MoveOp) (h : Nat)
    (hvalid : validMoveOps s0.length ops = true)
    (hone : ownCount h s0 = 1) :
    ((runOps s0 ops).2 ++ destroyAll (runOps s0 ops).1).count h = 1 ∧
    (∀ i j, i < s0.length → j < s0.length → i ≠ j →
      (moveAssignStep s0 i j).1.getD i none = none ∧
      destructorReleases ((moveAssignStep s0 i j).1.getD i none) = []) := by
  constructor
  · rw [List.count_append, count_destroyAll]
    have hbal := runOps_balance h ops s0 hvalid
    omega
  · intro i j hi hj hij
    unfold moveAssignStep
    rw [if_neg hij]
    simp only
    have hempty : ((s0.set j (s0.getD i none)).set i none).getD i none
        = none :=
      getD_set_self (s0.set j (s0.getD i none)) (by simpa using hi) _ _
    exact ⟨hempty, by rw [hempty]; rfl⟩

/-- C5 witness instance: handle 7 moved through `b = move(a)`, then a move
construction from `b`, then a final move assignment, then destruction. -/
theorem scoped_resource_single_release_witness :
    validMoveOps ([some 7, none, none] : List (Option Nat)).length
      [MoveOp.assign 0 1, MoveOp.ctor 1, MoveOp.assign 3 2] = true ∧
    ownCount 7 [some 7, none, none] = 1 ∧
    (((runOps [some 7, none, none]
        [MoveOp.assign 0 1, MoveOp.ctor 1, MoveOp.assign 3 2]).2 ++
      destroyAll (runOps [some 7, none, none]
        [MoveOp.assign 0 1, MoveOp.ctor 1, MoveOp.assign 3 2]).1).count 7 = 1 ∧
    (∀ i j, i < ([some 7, none, none] : List (Option Nat)).length →
      j < ([some 7, none, none] : List (Option Nat)).length → i ≠ j →
      (moveAssignStep [some 7, none, none] i j).1.getD i none = none ∧
      destructorReleases
        ((moveAssignStep [some 7, none, none] i j).1.getD i none) = [])) :=
  ⟨by decide, by decide,
    scoped_resource_single_release [some 7, none, none]
      [MoveOp.assign 0 1, MoveOp.ctor 1, MoveOp.assign 3 2] 7
      (by decide) (by decide)⟩

/-- C9: move-assigning an instance to itself is a no-op: the self-assignment
guard returns before any release, so the collection is unchanged and no
handle is released. -/
theorem move_self_assign_noop (s : List (Option Nat)) (i : Nat) :
    (moveAssignStep s i i).1 = s ∧ (moveAssignStep s i i).2 = [] ∧
    (moveAssignStep s i i).1.getD i none = s.getD i none := by
  unfold moveAssignStep
  simp

/-! ### Lock handles

`Texture::LockHandle` (Texture.hh 114-235) holds `texture_ : Texture*`; the
destructor (156-159) calls `SDL_UnlockTexture` iff `texture_ != nullptr`.
`Surface::LockHandle` (Surface.hh 81-190) holds `surface_ : Surface*`; both
the acquiring constructor (99-104) and the destructor (117-130) guard the
native lock/unlock behind `SDL_MUSTLOCK(surface)`.  A handle state is the
owned parent pointer: `Option Unit` for textures, `Option Bool` for surfaces
(the `Bool` records whether `SDL_MUSTLOCK` holds for the pointed-to
surface). -/

/-- `LockHandle(Texture*, rect)` (Texture.hh 132-135) on success: the handle
references its parent texture (a failed `SDL_LockTexture` throws and no
handle exists). -/
def texLockAcquire : Option Unit := some ()

/-- Default-constructed no-op lock (Texture.hh 145-146): `texture_ =
nullptr`. -/
def texLockDefault : Option Unit := none

/-- `~LockHandle` (Texture.hh 156-159): number of `SDL_UnlockTexture` calls
performed. -/
def texLockDtorUnlocks (t : Option Unit) : Nat := if t.isSome then 1 else 0

/-- `LockHandle::operator=(LockHandle&&)` between two distinct texture lock
handles (Texture.hh 181-197): the target unlocks what it held, takes the
source's fields, and the source is nulled.  Returns the new
(target, source) states and the number of `SDL_UnlockTexture` calls made. -/
def texLockMoveAssign (tgt src : Option Unit) :
    (Option Unit × Option Unit) × Nat :=
  ((src, none), if tgt.isSome then 1 else 0)

/-- `LockHandle(Surface*)` (Surface.hh 99-104) on success; `mustLock` is
`SDL_MUSTLOCK` of the parent surface. -/
def surfLockAcquire (mustLock : Bool) : Option Bool := some mustLock

/-- Number of `SDL_LockSurface` calls made by the acquiring constructor
(Surface.hh 99-104): one iff `SDL_MUSTLOCK`. -/
def surfLockCtorLocks (mustLock : Bool) : Nat := if mustLock then 1 else 0

/-- Default-constructed no-op lock (Surface.hh 113-114): `surface_ =
nullptr`. -/
def surfLockDefault : Option Bool := none

/-- `~LockHandle` (Surface.hh 124-130): `SDL_UnlockSurface` is called iff
the parent is non-null and `SDL_MUSTLOCK` holds for it. -/
def surfLockDtorUnlocks : Option Bool → Nat
  | none => 0
  | some ml => if ml then 1 else 0

/-- `LockHandle::operator=(LockHandle&&)` between two distinct surface lock
handles (Surface.hh 148-163): the target unlocks what it held (guarded by
`SDL_MUSTLOCK`), takes the source's parent, and the source is nulled. -/
def surfLockMoveAssign (tgt src : Option Bool) :
    (Option Bool × Option Bool) × Nat :=
  ((src, none), surfLockDtorUnlocks tgt)

/-- C7 counterexample: for a surface that does not require locking
(`SDL_MUSTLOCK` false), acquiring a `Surface::LockHandle` and releasing it
by scope exit performs zero `SDL_UnlockSurface` calls, not exactly one. -/
theorem lock_unlock_exactly_once_counterexample :
    ¬ surfLockDtorUnlocks (surfLockAcquire false) = 1 := by decide

/-- C7 (amended): a `Texture::LockHandle` that acquired its lock performs
exactly one unlock, whether released by scope exit or by move-away (the
moved-from handle then unlocking nothing); a `Surface::LockHandle` performs
exactly as many unlocks as the locks taken at acquisition — one iff
`SDL_MUSTLOCK` holds for the surface, zero otherwise — again on either
release path; default-constructed handles of both kinds perform zero
unlocks. -/
theorem lock_unlock_balanced :
    texLockDtorUnlocks texLockAcquire = 1 ∧
    ((texLockMoveAssign texLockDefault texLockAcquire).2
      + texLockDtorUnlocks (texLockMoveAssign texLockDefault texLockAcquire).1.1
      + texLockDtorUnlocks (texLockMoveAssign texLockDefault texLockAcquire).1.2
      = 1) ∧
    texLockDtorUnlocks texLockDefault = 0 ∧
    (∀ b : Bool, surfLockDtorUnlocks (surfLockAcquire b) = surfLockCtorLocks b) ∧
    (∀ b : Bool,
      (surfLockMoveAssign surfLockDefault (surfLockAcquire b)).2
        + surfLockDtorUnlocks
            (surfLockMoveAssign surfLockDefault (surfLockAcquire b)).1.1
        + surfLockDtorUnlocks
            (surfLockMoveAssign surfLockDefault (surfLockAcquire b)).1.2
        = surfLockCtorLocks b) ∧
    surfLockDtorUnlocks surfLockDefault = 0 := by decide

/-! ### Acquiring constructors -/

/-- `Renderer::Renderer(Window&, int, Uint32)` (Renderer.hh 86-89): `native`
is the `SDL_CreateRenderer` result (`none` = null); failure throws
`Exception("SDL_CreateRenderer")`, success owns the handle. -/
def rendererCreate (native : Option Nat) : Except String Nat :=
  match native with
  | none => .error "SDL_CreateRenderer"
  | some hdl => .ok hdl

/-- `Window::Window(title, x, y, w, h, flags)` (Window.hh 97-100):
`SDL_CreateWindow` null result throws `Exception("SDL_CreateWindow")`. -/
def windowCreate (native : Option Nat) : Except String Nat :=
  match native with
  | none => .error "SDL_CreateWindow"
  | some hdl => .ok hdl

/-- `Surface::Surface(flags, width, height, depth, masks)` (Surface.hh
242-245): `SDL_CreateRGBSurface` null result throws
`Exception("SDL_CreateRGBSurface")`. -/
def surfaceCreate (native : Option Nat) : Except String Nat :=
  match native with
  | none => .error "SDL_CreateRGBSurface"
  | some hdl => .ok hdl

/-- `Mixer::Mixer(frequency, format, channels, chunksize)` (Mixer.hh 83-86):
`ret` is the `Mix_OpenAudio` return code; a non-zero code throws
`Exception("Mix_OpenAudio")`, success leaves `open_ = true`. -/
def mixerCreate (ret : Int) : Except String Bool :=
  if ret ≠ 0 then .error "Mix_OpenAudio" else .ok true

/-- C8: whenever the underlying native acquire call signals failure, each
acquiring constructor present in the sources raises an error naming that
specific native operation, and no owned handle results from the attempt. -/
theorem acquisition_failure_names_operation (ret : Int) (hret : ret ≠ 0) :
    rendererCreate none = .error "SDL_CreateRenderer" ∧
    windowCreate none = .error "SDL_CreateWindow" ∧
    surfaceCreate none = .error "SDL_CreateRGBSurface" ∧
    mixerCreate ret = .error "Mix_OpenAudio" ∧
    (∀ hdl : Nat, rendererCreate none ≠ .ok hdl) ∧
    (∀ hdl : Nat, windowCreate none ≠ .ok hdl) ∧
    (∀ hdl : Nat, surfaceCreate none ≠ .ok hdl) ∧
    (∀ b : Bool, mixerCreate ret ≠ .ok b) := by
  refine ⟨rfl, rfl, rfl, ?_, fun _ => by simp [rendererCreate],
    fun _ => by simp [windowCreate], fun _ => by simp [surfaceCreate], ?_⟩
  · simp [mixerCreate, hret]
  · intro b
    simp [mixerCreate, hret]

/-- C8 witness instance: `Mix_OpenAudio` returning -1. -/
theorem acquisition_failure_names_operation_witness :
    (-1 : Int) ≠ 0 ∧
    (rendererCreate none = .error "SDL_CreateRenderer" ∧
      windowCreate none = .error "SDL_CreateWindow" ∧
      surfaceCreate none = .error "SDL_CreateRGBSurface" ∧
      mixerCreate (-1) = .error "Mix_OpenAudio" ∧
      (∀ hdl : Nat, rendererCreate none ≠ .ok hdl) ∧
      (∀ hdl : Nat, windowCreate none ≠ .ok hdl) ∧
      (∀ hdl : Nat, surfaceCreate none ≠ .ok hdl) ∧
      (∀ b : Bool, mixerCreate (-1) ≠ .ok b)) :=
  ⟨by decide, acquisition_failure_names_operation (-1) (by decide)⟩

end SDL2pp
